import Mathlib

/-!
Verification of the fiber segmentation pipeline
(`ark/segmentation/fiber_segmentation.py`).

Images are shallowly embedded as functions out of `Fin h × Fin w`:
integer-valued label images as `Img h w`, floating-point images as
rational-valued `RImg h w`, and possibly non-finite floating-point images
(numpy NaN/Inf, which arise from `blurred / np.max(blurred)` on an all-zero
image) as `NImg h w`, where `none` marks a non-finite value.

Library primitives whose internals live outside this repository
(scipy `gaussian_filter`, skimage `equalize_adapthist`, `meijering`,
`distance_transform_edt`, `threshold_multiotsu`, `sobel`, `watershed`,
scipy `ndi.label`) are abstract stage functions collected in a `Stages`
record; their documented postconditions (watershed floods every pixel from
the given markers, `ndi.label` produces a connected-component labeling
with contiguous ids) appear as explicit decidable hypotheses.  The glue
computed by the repository itself (normalization, threshold classification,
watershed-minus-one, `remove_small_objects`, the elementwise mask
multiplication, the regionprops label column, directory precondition
checks) is embedded executably below.
-/

/-- Integer-valued image (label images, marker images). -/
abbrev Img (h w : Nat) := Fin h → Fin w → Int

/-- Finite floating-point image, modelled with rationals. -/
abbrev RImg (h w : Nat) := Fin h → Fin w → Rat

/-- Floating-point image in which a pixel may be non-finite (NaN/Inf),
marked by `none`; produced by numpy division by zero. -/
abbrev NImg (h w : Nat) := Fin h → Fin w → Option Rat

/-- Row-major list of all pixel positions of an `h × w` image. -/
def allPositions (h w : Nat) : List (Fin h × Fin w) :=
  (List.finRange h).flatMap (fun r => (List.finRange w).map (fun c => (r, c)))

/-- All pixel values of an integer image, in row-major order. -/
def pixVals {h w : Nat} (img : Img h w) : List Int :=
  (allPositions h w).map (fun p => img p.1 p.2)

/-- All pixel values of a rational image, in row-major order. -/
def pixValsR {h w : Nat} (img : RImg h w) : List Rat :=
  (allPositions h w).map (fun p => img p.1 p.2)

/-- Number of pixels of `img` holding value `v` (numpy `bincount` entry). -/
def countVal {h w : Nat} (img : Img h w) (v : Int) : Nat :=
  (pixVals img).count v

/-- `np.max` over a (nonnegative-valued) image; `0` on an empty image.
The microscopy channel data handled by the pipeline is nonnegative, so the
`0` seed of the fold agrees with numpy's maximum. -/
def npMax {h w : Nat} (img : RImg h w) : Rat :=
  (pixValsR img).foldr (fun a b => if a ≤ b then b else a) 0

/-- numpy floating-point division: dividing by `0.0` yields a non-finite
value (NaN for `0.0/0.0`, Inf otherwise) and raises no exception; both
non-finite outcomes are modelled by `none`. -/
def npDiv (a b : Rat) : Option Rat :=
  if b = 0 then none else some (a / b)

/-- The preprocessing max-normalization `blurred / np.max(blurred)`
(line 174 of `fiber_segmentation.py`), with numpy division semantics. -/
def npDivMax {h w : Nat} (img : RImg h w) : NImg h w :=
  fun r c => npDiv (img r c) (npMax img)

/-- Watershed-setup classification (lines 188-192): start from zeros, set
`1` where the distance field is strictly below the lower cutoff, then set
`2` where it is strictly above the upper cutoff (the later write wins on
overlap, which cannot occur for sorted cutoffs). -/
def threshStage {h w : Nat} (d : RImg h w) (t0 t1 : Rat) : Img h w :=
  fun r c => if t1 < d r c then 2 else if d r c < t0 then 1 else 0

/-- Elementwise product of two images (`*` on numpy arrays, line 202). -/
def imMul {h w : Nat} (a b : Img h w) : Img h w :=
  fun r c => a r c * b r c

/-- Elementwise subtraction of `1` (`watershed(...) - 1`, line 198). -/
def imSub1 {h w : Nat} (a : Img h w) : Img h w :=
  fun r c => a r c - 1

/-- skimage `remove_small_objects` on an already-labeled integer image:
every pixel whose label value occurs on fewer than `min_size` pixels is
zeroed; all other pixels keep their label value verbatim. -/
def remove_small_objects {h w : Nat} (img : Img h w) (min_size : Nat) : Img h w :=
  fun r c => if countVal img (img r c) < min_size then 0 else img r c

/-- The object-filtering step of the pipeline (line 202):
`remove_small_objects(labeled, min_size) * segmentation`. -/
def filterStage {h w : Nat} (lab seg : Img h w) (min_size : Nat) : Img h w :=
  imMul (remove_small_objects lab min_size) seg

/-- The label column of skimage `regionprops_table` (line 215): one row per
positive label value present in the image, in ascending label order. -/
def regionprops_table {h w : Nat} (img : Img h w) : List Int :=
  List.insertionSort (· ≤ ·) (((pixVals img).filter (fun v => decide (0 < v))).dedup)

/-- 4-adjacency of two pixel positions. -/
def adjacent {h w : Nat} (p q : Fin h × Fin w) : Bool :=
  (decide (p.1 = q.1) && (decide (p.2.val + 1 = q.2.val) || decide (q.2.val + 1 = p.2.val))) ||
  (decide (p.2 = q.2) && (decide (p.1.val + 1 = q.1.val) || decide (q.1.val + 1 = p.1.val)))

/-- One step of reachability growth inside the position list `cls`. -/
def growReach {h w : Nat} (cls s : List (Fin h × Fin w)) : List (Fin h × Fin w) :=
  cls.filter (fun q => s.any (fun x => decide (x = q)) || s.any (fun p => adjacent p q))

/-- Iterated reachability growth. -/
def iterReach {h w : Nat} (cls : List (Fin h × Fin w)) :
    Nat → List (Fin h × Fin w) → List (Fin h × Fin w)
  | 0, s => s
  | Nat.succ k, s => iterReach cls k (growReach cls s)

/-- Decidable 4-connectedness of a finite set of pixel positions: all
positions are reachable from the first one without leaving the set. -/
def connectedList {h w : Nat} (cls : List (Fin h × Fin w)) : Bool :=
  match cls with
  | [] => true
  | p :: _ => cls.all (fun q => (iterReach cls (h * w) [p]).any (fun x => decide (x = q)))

/-- Positions of `img` holding value `v`. -/
def classPos {h w : Nat} (img : Img h w) (v : Int) : List (Fin h × Fin w) :=
  (allPositions h w).filter (fun p => decide (img p.1 p.2 = v))

/-- The pixels of value `v` form one 4-connected region. -/
def classConnected {h w : Nat} (img : Img h w) (v : Int) : Bool :=
  connectedList (classPos img v)

/-- The image takes only the values `0` and `1` (the watershed output minus
one, when the markers are the two threshold classes). -/
def isBinary {h w : Nat} (seg : Img h w) : Bool :=
  (allPositions h w).all (fun p => decide (seg p.1 p.2 = 0 ∨ seg p.1 p.2 = 1))

/-- Documented contract of `scipy.ndimage.label` applied to `seg` with `n`
found features: the labeled image is zero exactly where `seg` is zero, its
values lie in `0..n`, every label `1..n` occurs, and each label's pixels
form one connected region. -/
def isComponentLabeling {h w : Nat} (seg lab : Img h w) (n : Nat) : Bool :=
  ((allPositions h w).all (fun p =>
      decide ((lab p.1 p.2 = 0 ↔ seg p.1 p.2 = 0) ∧
              0 ≤ lab p.1 p.2 ∧ lab p.1 p.2 ≤ (n : Int))) &&
   (List.range n).all (fun k => decide (0 < countVal lab ((k : Int) + 1)))) &&
  (List.range n).all (fun k => classConnected lab ((k : Int) + 1))

/-- The image-processing library primitives called by the pipeline, whose
implementations live outside this repository (scipy/skimage).  Each field
keeps the source call's shape: `gaussian_filter sigma img`,
`equalize_adapthist kernel_size img` (its input may hold non-finite
values when normalization divided by zero), `meijering sigmas img`,
`distance_transform_edt mask`, `threshold_multiotsu img` with `classes=3`
returning exactly two cutoffs, `sobel img`, `watershed elevation markers`,
and `label img` returning the component labeling and the feature count. -/
structure Stages (h w : Nat) where
  gaussian_filter : Rat → RImg h w → RImg h w
  equalize_adapthist : Rat → NImg h w → RImg h w
  meijering : List Rat → RImg h w → RImg h w
  distance_transform_edt : (Fin h → Fin w → Bool) → RImg h w
  threshold_multiotsu : RImg h w → Rat × Rat
  sobel : RImg h w → RImg h w
  watershed : RImg h w → Img h w → Img h w
  label : Img h w → Img h w × Nat

/-- The tunable parameters of the pipeline, as in the two signatures in
`fiber_segmentation.py` (`contrast_scaling_divisor` is an integer in the
source; the kernel size is its float quotient into the image height). -/
structure Params where
  blur : Rat
  contrast_scaling_divisor : Nat
  fiber_widths : List Rat
  ridge_cutoff : Rat
  sobel_blur : Rat
  min_fiber_size : Nat

/-- The per-fov stage chain of `segment_fibers` (lines 169-202): gaussian
blur, max-normalize, adaptive histogram equalization with kernel size
`fov_len / contrast_scaling_divisor`, meijering ridge filter, euclidean
distance transform of the ridge mask re-smoothed with sigma 1, multi-Otsu
cutoffs, threshold classification, sobel elevation of the re-blurred
distance field, watershed minus one, connected-component labeling, and
small-object removal multiplied elementwise into the segmentation. -/
def segment_fibers_fov {h w : Nat} (S : Stages h w) (P : Params) (fov_len : Nat)
    (img : RImg h w) : Img h w :=
  let blurred := S.gaussian_filter P.blur img
  let contrast_adjusted := S.equalize_adapthist
    ((fov_len : Rat) / (P.contrast_scaling_divisor : Rat)) (npDivMax blurred)
  let ridges := S.meijering P.fiber_widths contrast_adjusted
  let distance_transformed := S.gaussian_filter 1
    (S.distance_transform_edt (fun r c => decide (P.ridge_cutoff < ridges r c)))
  let thresholds := S.threshold_multiotsu distance_transformed
  let threshed := threshStage distance_transformed thresholds.1 thresholds.2
  let elevation_map := S.sobel (S.gaussian_filter P.sobel_blur distance_transformed)
  let segmentation := imSub1 (S.watershed elevation_map threshed)
  let labeled := (S.label segmentation).1
  filterStage labeled segmentation P.min_fiber_size

/-- The stage chain of `plot_fiber_segmentation_steps` (lines 57-103),
which computes its equalization kernel from the fov image's own first
spatial dimension `channel_data.shape[0] = h`. -/
def plot_fiber_segmentation_steps {h w : Nat} (S : Stages h w) (P : Params)
    (img : RImg h w) : Img h w :=
  let blurred := S.gaussian_filter P.blur img
  let contrast_adjusted := S.equalize_adapthist
    ((h : Rat) / (P.contrast_scaling_divisor : Rat)) (npDivMax blurred)
  let ridges := S.meijering P.fiber_widths contrast_adjusted
  let distance_transformed := S.gaussian_filter 1
    (S.distance_transform_edt (fun r c => decide (P.ridge_cutoff < ridges r c)))
  let thresholds := S.threshold_multiotsu distance_transformed
  let threshed := threshStage distance_transformed thresholds.1 thresholds.2
  let elevation_map := S.sobel (S.gaussian_filter P.sobel_blur distance_transformed)
  let segmentation := imSub1 (S.watershed elevation_map threshed)
  let labeled := (S.label segmentation).1
  filterStage labeled segmentation P.min_fiber_size

/-- Errors raised by `segment_fibers` before any fov is processed:
`FileNotFoundError` for a missing output directory (line 162) and
`FileExistsError` from `os.makedirs` on a pre-existing debug directory
(line 166; `exist_ok` is left at its default `False`). -/
inductive SegError where
  | fileNotFound : SegError
  | fileExists : SegError
deriving DecidableEq

/-- The observable outputs of a successful `segment_fibers` run: the
concatenated fiber object table (here its label column tagged by fov, in
fov order then ascending label order), the per-fov label images, and the
directories created by `os.makedirs`. -/
structure SegOutput (h w : Nat) where
  fiber_object_table : List (String × Int)
  fiber_label_images : List (String × Img h w)
  createdDirs : List String

/-- `os.path.join(out_dir, '_debug')` (line 165). -/
def debugPath (out_dir : String) : String := out_dir ++ "/_debug"

/-- Shallow embedding of `segment_fibers` (lines 111-224): the filesystem
is the list `fs` of existing paths; the fovs of the channel stack are a
list of named `h × w` rational images, so `fov_len = channel_xr.shape[1]`
is `h`.  The missing-output-directory check precedes everything; debug
mode then runs `os.makedirs` on the `_debug` subdirectory, which fails if
it already exists; only then is each fov processed. -/
def segment_fibers {h w : Nat} (S : Stages h w) (P : Params) (fs : List String)
    (out_dir : String) (debug : Bool) (fovs : List (String × RImg h w)) :
    Except SegError (SegOutput h w) :=
  if !(fs.any (fun s => decide (s = out_dir))) then .error .fileNotFound
  else if debug && fs.any (fun s => decide (s = debugPath out_dir)) then .error .fileExists
  else .ok
    { fiber_object_table := fovs.flatMap (fun f =>
        (regionprops_table (segment_fibers_fov S P h f.2)).map (fun v => (f.1, v)))
      fiber_label_images := fovs.map (fun f => (f.1, segment_fibers_fov S P h f.2))
      createdDirs := if debug then [debugPath out_dir] else [] }

/-- Discriminator for a successful `segment_fibers` run. -/
def isOkRun {h w : Nat} (e : Except SegError (SegOutput h w)) : Bool :=
  match e with
  | .ok _ => true
  | .error _ => false

/-- Decidable pointwise equality of two rational images. -/
def imgEq {h w : Nat} (a b : RImg h w) : Bool :=
  (allPositions h w).all (fun p => decide (a p.1 p.2 = b p.1 p.2))

/-- Decidable pointwise equality of two named fov lists. -/
def fovListEq {h w : Nat} (f1 f2 : List (String × RImg h w)) : Bool :=
  decide (f1.length = f2.length) &&
  (f1.zip f2).all (fun ab => decide (ab.1.1 = ab.2.1) && imgEq ab.1.2 ab.2.2)

/-- Every position is enumerated by `allPositions`. -/
lemma mem_allPositions {h w : Nat} (p : Fin h × Fin w) : p ∈ allPositions h w := by
  unfold allPositions
  rw [List.mem_flatMap]
  exact ⟨p.1, List.mem_finRange _, List.mem_map.mpr ⟨p.2, List.mem_finRange _, rfl⟩⟩

/-- A value occurs among the pixel values iff some pixel holds it. -/
lemma mem_pixVals {h w : Nat} (img : Img h w) (v : Int) :
    v ∈ pixVals img ↔ ∃ p : Fin h × Fin w, img p.1 p.2 = v := by
  unfold pixVals
  rw [List.mem_map]
  constructor
  · rintro ⟨p, _, rfl⟩
    exact ⟨p, rfl⟩
  · rintro ⟨p, hp⟩
    exact ⟨p, mem_allPositions p, hp⟩

/-- Membership in the regionprops label column: exactly the positive values
held by some pixel. -/
lemma mem_regionprops_table {h w : Nat} (img : Img h w) (v : Int) :
    v ∈ regionprops_table img ↔ 0 < v ∧ ∃ p : Fin h × Fin w, img p.1 p.2 = v := by
  unfold regionprops_table
  rw [(List.perm_insertionSort _ _).mem_iff, List.mem_dedup, List.mem_filter,
    decide_eq_true_iff, mem_pixVals, and_comm]

/-- The regionprops label column lists each surviving label exactly once. -/
lemma nodup_regionprops_table {h w : Nat} (img : Img h w) :
    (regionprops_table img).Nodup := by
  unfold regionprops_table
  exact (List.perm_insertionSort _ _).nodup_iff.mpr (List.nodup_dedup _)

/-- A positive occurrence count exhibits a pixel with that value. -/
lemma countVal_pos_exists {h w : Nat} {img : Img h w} {v : Int}
    (hv : 0 < countVal img v) : ∃ p : Fin h × Fin w, img p.1 p.2 = v := by
  unfold countVal at hv
  exact (mem_pixVals img v).mp (List.count_pos_iff.mp hv)

/-- Unpacking `isBinary`. -/
lemma isBinary_spec {h w : Nat} {seg : Img h w} (hb : isBinary seg = true)
    (p : Fin h × Fin w) : seg p.1 p.2 = 0 ∨ seg p.1 p.2 = 1 := by
  unfold isBinary at hb
  rw [List.all_eq_true] at hb
  exact of_decide_eq_true (hb p (mem_allPositions p))

/-- Unpacking the pixelwise part of the `ndi.label` contract. -/
lemma icl_pix {h w : Nat} {seg lab : Img h w} {n : Nat}
    (hc : isComponentLabeling seg lab n = true) (p : Fin h × Fin w) :
    (lab p.1 p.2 = 0 ↔ seg p.1 p.2 = 0) ∧ 0 ≤ lab p.1 p.2 ∧ lab p.1 p.2 ≤ (n : Int) := by
  unfold isComponentLabeling at hc
  rw [Bool.and_eq_true, Bool.and_eq_true] at hc
  have hall := hc.1.1
  rw [List.all_eq_true] at hall
  exact of_decide_eq_true (hall p (mem_allPositions p))

/-- Unpacking the occurrence part of the `ndi.label` contract. -/
lemma icl_occurs {h w : Nat} {seg lab : Img h w} {n : Nat}
    (hc : isComponentLabeling seg lab n = true) (k : Nat) (hk : k < n) :
    0 < countVal lab ((k : Int) + 1) := by
  unfold isComponentLabeling at hc
  rw [Bool.and_eq_true, Bool.and_eq_true] at hc
  have hall := hc.1.2
  rw [List.all_eq_true] at hall
  exact of_decide_eq_true (hall k (List.mem_range.mpr hk))

/-- Unpacking the connectivity part of the `ndi.label` contract, for an
integer label value in `1..n`. -/
lemma icl_conn_val {h w : Nat} {seg lab : Img h w} {n : Nat}
    (hc : isComponentLabeling seg lab n = true) {v : Int}
    (h1 : 1 ≤ v) (h2 : v ≤ (n : Int)) : classConnected lab v = true := by
  unfold isComponentLabeling at hc
  rw [Bool.and_eq_true] at hc
  have hall := hc.2
  rw [List.all_eq_true] at hall
  have hk : (((v - 1).toNat : Int)) + 1 = v := by omega
  have hkn : (v - 1).toNat < n := by omega
  have := hall (v - 1).toNat (List.mem_range.mpr hkn)
  rwa [hk] at this

/-- Pointwise value of the filtering step: under the watershed and labeling
contracts, multiplying the size-filtered labels back into the binary
segmentation just reproduces the size filter. -/
lemma filterStage_pix {h w : Nat} {lab seg : Img h w} {m : Nat}
    (hb : ∀ p : Fin h × Fin w, seg p.1 p.2 = 0 ∨ seg p.1 p.2 = 1)
    (hsupp : ∀ p : Fin h × Fin w, lab p.1 p.2 = 0 ↔ seg p.1 p.2 = 0)
    (p : Fin h × Fin w) :
    filterStage lab seg m p.1 p.2 =
      if countVal lab (lab p.1 p.2) < m then 0 else lab p.1 p.2 := by
  simp only [filterStage, imMul, remove_small_objects]
  rcases hb p with h0 | h1
  · have hl : lab p.1 p.2 = 0 := (hsupp p).mpr h0
    rw [h0, hl]
    simp
  · rw [h1, mul_one]

/-- Where a surviving label's pixels sit is unchanged by the filtering
step: the positions of value `v` in the filtered image are exactly its
positions in the pre-filter labeling. -/
lemma classPos_filterStage {h w : Nat} {lab seg : Img h w} {m : Nat} {v : Int}
    (hb : ∀ p : Fin h × Fin w, seg p.1 p.2 = 0 ∨ seg p.1 p.2 = 1)
    (hsupp : ∀ p : Fin h × Fin w, lab p.1 p.2 = 0 ↔ seg p.1 p.2 = 0)
    (hv : v ≠ 0) (hcnt : m ≤ countVal lab v) :
    classPos (filterStage lab seg m) v = classPos lab v := by
  unfold classPos
  apply List.filter_congr
  intro p _
  rw [decide_eq_decide, filterStage_pix hb hsupp p]
  constructor
  · intro hp
    split at hp
    · exact absurd hp.symm hv
    · exact hp
  · intro hp
    rw [hp, if_neg (not_lt.mpr hcnt)]

/-- The filtered label image is nonnegative under the labeling contract. -/
lemma filterStage_nonneg {h w : Nat} {lab seg : Img h w} {m : Nat}
    (hb : ∀ p : Fin h × Fin w, seg p.1 p.2 = 0 ∨ seg p.1 p.2 = 1)
    (hlab : ∀ p : Fin h × Fin w, 0 ≤ lab p.1 p.2)
    (p : Fin h × Fin w) : 0 ≤ filterStage lab seg m p.1 p.2 := by
  simp only [filterStage, imMul, remove_small_objects]
  rcases hb p with h0 | h1
  · rw [h0, mul_zero]
  · rw [h1, mul_one]
    split
    · exact le_refl 0
    · exact hlab p

/-- Concrete stage functions used to instantiate the abstract library
primitives in witnesses. -/
def testStages (h w : Nat) : Stages h w where
  gaussian_filter := fun _ img => img
  equalize_adapthist := fun _ img => fun r c => (img r c).getD 0
  meijering := fun _ img => img
  distance_transform_edt := fun mask => fun r c => if mask r c then 1 else 0
  threshold_multiotsu := fun _ => (0, 1)
  sobel := fun img => img
  watershed := fun _ markers => fun r c => if markers r c = 1 then 1 else 2
  label := fun s => (s, 1)

/-- Concrete binary segmentation: top row foreground. -/
def segW : Img 2 2 := fun r _ => if r.val = 0 then 1 else 0

/-- Concrete component labeling of `segW`: the single component gets id 1. -/
def labW : Img 2 2 := fun r _ => if r.val = 0 then 1 else 0

/-- C1: for every fov processed by `segment_fibers`, with the watershed
output minus one binary and `ndi.label` meeting its contract on it, the
rows of the fiber object table (one per label value in the regionprops
label column) and the non-zero pixel values of the filtered label image
are in bijective correspondence — every row's label is held by some
non-zero pixel and conversely, each such label yields exactly one row
(the column has no duplicates) — and each row's label id corresponds to
exactly one connected region after small-object removal. -/
theorem fiber_table_label_bijection {h w : Nat} (seg lab : Img h w) (n m : Nat)
    (hb : isBinary seg = true) (hc : isComponentLabeling seg lab n = true) :
    (∀ v : Int, v ∈ regionprops_table (filterStage lab seg m) ↔
      (v ≠ 0 ∧ ∃ p : Fin h × Fin w, filterStage lab seg m p.1 p.2 = v)) ∧
    (regionprops_table (filterStage lab seg m)).Nodup ∧
    (∀ v : Int, v ∈ regionprops_table (filterStage lab seg m) →
      classConnected (filterStage lab seg m) v = true) := by
  have hb' := isBinary_spec hb
  have hsupp : ∀ p : Fin h × Fin w, lab p.1 p.2 = 0 ↔ seg p.1 p.2 = 0 :=
    fun p => (icl_pix hc p).1
  have hlab0 : ∀ p : Fin h × Fin w, 0 ≤ lab p.1 p.2 := fun p => (icl_pix hc p).2.1
  refine ⟨?_, nodup_regionprops_table _, ?_⟩
  · intro v
    rw [mem_regionprops_table]
    constructor
    · rintro ⟨hpos, hex⟩
      exact ⟨by omega, hex⟩
    · rintro ⟨hne, p, hp⟩
      refine ⟨?_, ⟨p, hp⟩⟩
      have hnn := filterStage_nonneg (m := m) hb' hlab0 p
      rw [hp] at hnn
      omega
  · intro v hv
    rw [mem_regionprops_table] at hv
    obtain ⟨hpos, p, hp⟩ := hv
    have hpix := filterStage_pix (m := m) hb' hsupp p
    rw [hp] at hpix
    rcases lt_or_ge (countVal lab (lab p.1 p.2)) m with hlt | hge
    · rw [if_pos hlt] at hpix
      omega
    · rw [if_neg (not_lt.mpr hge)] at hpix
      have hlabv : lab p.1 p.2 = v := hpix.symm
      rw [hlabv] at hge
      have hvn : v ≤ (n : Int) := hlabv ▸ (icl_pix hc p).2.2
      have hcp := classPos_filterStage hb' hsupp (by omega) hge
      have hl := icl_conn_val hc (by omega) hvn
      unfold classConnected at hl ⊢
      rw [hcp]
      exact hl

/-- Witness for C1 at a concrete segmentation and labeling. -/
theorem fiber_table_label_bijection_witness :
    isBinary segW = true ∧ isComponentLabeling segW labW 1 = true ∧
    ((∀ v : Int, v ∈ regionprops_table (filterStage labW segW 1) ↔
      (v ≠ 0 ∧ ∃ p : Fin 2 × Fin 2, filterStage labW segW 1 p.1 p.2 = v)) ∧
    (regionprops_table (filterStage labW segW 1)).Nodup ∧
    (∀ v : Int, v ∈ regionprops_table (filterStage labW segW 1) →
      classConnected (filterStage labW segW 1) v = true)) :=
  ⟨by decide, by decide, fiber_table_label_bijection segW labW 1 1 (by decide) (by decide)⟩

/-- C2: the filtered label image is exactly the elementwise product of the
`remove_small_objects` result with the pre-filter segmentation (not a
relabeling), and consequently every non-zero pixel of the filtered image
carries verbatim the label value that the pre-filter labeling already held
at that pixel. -/
theorem filtered_labels_from_elementwise_mask {h w : Nat} (lab seg : Img h w) (m : Nat)
    (hb : isBinary seg = true) :
    filterStage lab seg m = imMul (remove_small_objects lab m) seg ∧
    ∀ p : Fin h × Fin w, filterStage lab seg m p.1 p.2 ≠ 0 →
      filterStage lab seg m p.1 p.2 = lab p.1 p.2 := by
  refine ⟨rfl, ?_⟩
  intro p hne
  simp only [filterStage, imMul, remove_small_objects] at hne ⊢
  rcases isBinary_spec hb p with h0 | h1
  · rw [h0, mul_zero] at hne
    exact absurd rfl hne
  · rw [h1, mul_one] at hne ⊢
    rcases lt_or_ge (countVal lab (lab p.1 p.2)) m with hlt | hge
    · rw [if_pos hlt] at hne
      exact absurd rfl hne
    · rw [if_neg (not_lt.mpr hge)]

/-- Witness for C2 at a concrete labeling. -/
theorem filtered_labels_from_elementwise_mask_witness :
    isBinary segW = true ∧
    (filterStage labW segW 1 = imMul (remove_small_objects labW 1) segW ∧
    ∀ p : Fin 2 × Fin 2, filterStage labW segW 1 p.1 p.2 ≠ 0 →
      filterStage labW segW 1 p.1 p.2 = labW p.1 p.2) :=
  ⟨by decide, filtered_labels_from_elementwise_mask labW segW 1 (by decide)⟩

/-- C3: with the two multi-Otsu cutoffs (returned sorted, as
`threshold_multiotsu` guarantees), the threshold classification assigns
class 1 strictly below the lower cutoff, class 2 strictly above the upper
cutoff, and leaves the closed middle band at 0. -/
theorem thresh_two_cutoff_classification {h w : Nat} (S : Stages h w) (d : RImg h w)
    (hsorted : (S.threshold_multiotsu d).1 ≤ (S.threshold_multiotsu d).2) :
    ∀ (r : Fin h) (c : Fin w),
      (d r c < (S.threshold_multiotsu d).1 →
        threshStage d (S.threshold_multiotsu d).1 (S.threshold_multiotsu d).2 r c = 1) ∧
      ((S.threshold_multiotsu d).2 < d r c →
        threshStage d (S.threshold_multiotsu d).1 (S.threshold_multiotsu d).2 r c = 2) ∧
      ((S.threshold_multiotsu d).1 ≤ d r c → d r c ≤ (S.threshold_multiotsu d).2 →
        threshStage d (S.threshold_multiotsu d).1 (S.threshold_multiotsu d).2 r c = 0) := by
  intro r c
  simp only [threshStage]
  refine ⟨?_, ?_, ?_⟩
  · intro hlow
    rw [if_neg (by linarith), if_pos hlow]
  · intro hhigh
    rw [if_pos hhigh]
  · intro hge hle
    rw [if_neg (not_lt.mpr hle), if_neg (not_lt.mpr hge)]

/-- Concrete smoothed distance field for the C3 witness. -/
def dW : RImg 1 1 := fun _ _ => 0

/-- Witness for C3 at concrete stages and distance field. -/
theorem thresh_two_cutoff_classification_witness :
    ((testStages 1 1).threshold_multiotsu dW).1 ≤ ((testStages 1 1).threshold_multiotsu dW).2 ∧
    (∀ (r : Fin 1) (c : Fin 1),
      (dW r c < ((testStages 1 1).threshold_multiotsu dW).1 →
        threshStage dW ((testStages 1 1).threshold_multiotsu dW).1
          ((testStages 1 1).threshold_multiotsu dW).2 r c = 1) ∧
      (((testStages 1 1).threshold_multiotsu dW).2 < dW r c →
        threshStage dW ((testStages 1 1).threshold_multiotsu dW).1
          ((testStages 1 1).threshold_multiotsu dW).2 r c = 2) ∧
      (((testStages 1 1).threshold_multiotsu dW).1 ≤ dW r c →
        dW r c ≤ ((testStages 1 1).threshold_multiotsu dW).2 →
        threshStage dW ((testStages 1 1).threshold_multiotsu dW).1
          ((testStages 1 1).threshold_multiotsu dW).2 r c = 0)) :=
  ⟨by decide, thresh_two_cutoff_classification (testStages 1 1) dW (by decide)⟩

/-- C4: subtracting one from a watershed output whose values are the marker
classes 1 and 2 sends every class-1-flooded pixel to 0 and leaves a binary
image; the subsequent component labeling is zero exactly on that
background and assigns the contiguous ids `1..n`, each actually occurring. -/
theorem watershed_shift_and_contiguous_labels {h w : Nat} (ws lab : Img h w) (n : Nat)
    (hws : ∀ p : Fin h × Fin w, ws p.1 p.2 = 1 ∨ ws p.1 p.2 = 2)
    (hc : isComponentLabeling (imSub1 ws) lab n = true) :
    (∀ p : Fin h × Fin w, ws p.1 p.2 = 1 → imSub1 ws p.1 p.2 = 0) ∧
    (∀ p : Fin h × Fin w, imSub1 ws p.1 p.2 = 0 ∨ imSub1 ws p.1 p.2 = 1) ∧
    (∀ p : Fin h × Fin w, (imSub1 ws p.1 p.2 = 0 → lab p.1 p.2 = 0) ∧
      0 ≤ lab p.1 p.2 ∧ lab p.1 p.2 ≤ (n : Int)) ∧
    (∀ k : Nat, k < n → ∃ p : Fin h × Fin w, lab p.1 p.2 = (k : Int) + 1) := by
  refine ⟨?_, ?_, ?_, ?_⟩
  · intro p hp
    simp only [imSub1]
    omega
  · intro p
    rcases hws p with h1 | h2 <;> simp only [imSub1] <;> omega
  · intro p
    have hpix := icl_pix hc p
    exact ⟨fun h0 => hpix.1.mpr h0, hpix.2⟩
  · intro k hk
    exact countVal_pos_exists (icl_occurs hc k hk)

/-- Concrete watershed output for the C4 witness. -/
def wsW : Img 1 1 := fun _ _ => 2

/-- Concrete component labeling of `imSub1 wsW` for the C4 witness. -/
def labW1 : Img 1 1 := fun _ _ => 1

/-- Witness for C4 at a concrete watershed output and labeling. -/
theorem watershed_shift_and_contiguous_labels_witness :
    (∀ p : Fin 1 × Fin 1, wsW p.1 p.2 = 1 ∨ wsW p.1 p.2 = 2) ∧
    isComponentLabeling (imSub1 wsW) labW1 1 = true ∧
    ((∀ p : Fin 1 × Fin 1, wsW p.1 p.2 = 1 → imSub1 wsW p.1 p.2 = 0) ∧
    (∀ p : Fin 1 × Fin 1, imSub1 wsW p.1 p.2 = 0 ∨ imSub1 wsW p.1 p.2 = 1) ∧
    (∀ p : Fin 1 × Fin 1, (imSub1 wsW p.1 p.2 = 0 → labW1 p.1 p.2 = 0) ∧
      0 ≤ labW1 p.1 p.2 ∧ labW1 p.1 p.2 ≤ (1 : Int)) ∧
    (∀ k : Nat, k < 1 → ∃ p : Fin 1 × Fin 1, labW1 p.1 p.2 = (k : Int) + 1)) :=
  ⟨by decide, by decide,
    watershed_shift_and_contiguous_labels wsW labW1 1 (by decide) (by decide)⟩

/-- C9: the filtered label image returned per fov is integer-valued over
the same `h × w` grid as the source channel image (its type `Img h w`
carries the source dimensions through every stage), its pixels are
nonnegative, value 0 appears wherever the segmentation is background, and
every non-zero pixel value is a positive identifier naming exactly one
connected region. -/
theorem filtered_label_image_invariants {h w : Nat} (seg lab : Img h w) (n m : Nat)
    (hb : isBinary seg = true) (hc : isComponentLabeling seg lab n = true) :
    ∀ p : Fin h × Fin w,
      0 ≤ filterStage lab seg m p.1 p.2 ∧
      (seg p.1 p.2 = 0 → filterStage lab seg m p.1 p.2 = 0) ∧
      (filterStage lab seg m p.1 p.2 ≠ 0 →
        0 < filterStage lab seg m p.1 p.2 ∧
        classConnected (filterStage lab seg m) (filterStage lab seg m p.1 p.2) = true) := by
  have hb' := isBinary_spec hb
  have hsupp : ∀ p : Fin h × Fin w, lab p.1 p.2 = 0 ↔ seg p.1 p.2 = 0 :=
    fun p => (icl_pix hc p).1
  have hlab0 : ∀ p : Fin h × Fin w, 0 ≤ lab p.1 p.2 := fun p => (icl_pix hc p).2.1
  intro p
  refine ⟨filterStage_nonneg hb' hlab0 p, ?_, ?_⟩
  · intro h0
    simp only [filterStage, imMul]
    rw [h0, mul_zero]
  · intro hne
    have hpix := filterStage_pix (m := m) hb' hsupp p
    rcases lt_or_ge (countVal lab (lab p.1 p.2)) m with hlt | hge
    · rw [if_pos hlt] at hpix
      exact absurd hpix hne
    · rw [if_neg (not_lt.mpr hge)] at hpix
      rw [hpix] at hne ⊢
      have hv0 : 0 < lab p.1 p.2 := lt_of_le_of_ne (hlab0 p) (Ne.symm hne)
      have hvn : lab p.1 p.2 ≤ (n : Int) := (icl_pix hc p).2.2
      have hcp := classPos_filterStage hb' hsupp hne hge
      have hl := icl_conn_val hc (by omega) hvn
      refine ⟨hv0, ?_⟩
      unfold classConnected at hl ⊢
      rw [hcp]
      exact hl

/-- Witness for C9 at a concrete segmentation and labeling. -/
theorem filtered_label_image_invariants_witness :
    isBinary segW = true ∧ isComponentLabeling segW labW 1 = true ∧
    (∀ p : Fin 2 × Fin 2,
      0 ≤ filterStage labW segW 1 p.1 p.2 ∧
      (segW p.1 p.2 = 0 → filterStage labW segW 1 p.1 p.2 = 0) ∧
      (filterStage labW segW 1 p.1 p.2 ≠ 0 →
        0 < filterStage labW segW 1 p.1 p.2 ∧
        classConnected (filterStage labW segW 1) (filterStage labW segW 1 p.1 p.2) = true)) :=
  ⟨by decide, by decide, filtered_label_image_invariants segW labW 1 1 (by decide) (by decide)⟩

/-- C10: on a single fov with identical parameters, the stage chain of
`plot_fiber_segmentation_steps` computes exactly the filtered label image
of the `segment_fibers` per-fov chain (whose `fov_len` is the stack's
first spatial dimension, i.e. this fov's height `h`). -/
theorem plot_steps_matches_segment_fibers {h w : Nat} (S : Stages h w) (P : Params)
    (img : RImg h w) :
    plot_fiber_segmentation_steps S P img = segment_fibers_fov S P h img := rfl

/-- Pointwise-equal rational images are equal. -/
lemma imgEq_eq {h w : Nat} {a b : RImg h w} (he : imgEq a b = true) : a = b := by
  unfold imgEq at he
  rw [List.all_eq_true] at he
  funext r c
  exact of_decide_eq_true (he (r, c) (mem_allPositions (r, c)))

/-- Pointwise-equal fov lists are equal. -/
lemma fovListEq_eq {h w : Nat} :
    ∀ (f1 f2 : List (String × RImg h w)), fovListEq f1 f2 = true → f1 = f2 := by
  intro f1
  induction f1 with
  | nil =>
    intro f2 hc
    unfold fovListEq at hc
    rw [Bool.and_eq_true] at hc
    have hl := of_decide_eq_true hc.1
    cases f2 with
    | nil => rfl
    | cons b ys => simp at hl
  | cons a xs ih =>
    intro f2 hc
    cases f2 with
    | nil =>
      unfold fovListEq at hc
      rw [Bool.and_eq_true] at hc
      have hl := of_decide_eq_true hc.1
      simp at hl
    | cons b ys =>
      unfold fovListEq at hc
      rw [Bool.and_eq_true] at hc
      obtain ⟨hl, hall⟩ := hc
      rw [List.zip_cons_cons, List.all_cons, Bool.and_eq_true, Bool.and_eq_true] at hall
      obtain ⟨⟨h1, h2⟩, htail⟩ := hall
      have e1 : a.1 = b.1 := of_decide_eq_true h1
      have e2 : a.2 = b.2 := imgEq_eq h2
      have hxs : xs = ys := by
        apply ih
        unfold fovListEq
        rw [Bool.and_eq_true]
        refine ⟨decide_eq_true ?_, htail⟩
        have := of_decide_eq_true hl
        simpa using this
      have hab : a = b := Prod.ext e1 e2
      rw [hxs, hab]

/-- C5: `segment_fibers` is deterministic — two invocations on elementwise
identical image data with identical parameters, stage primitives and
filesystem state return identical results: the same per-fov label images
and the same feature table rows in the same order, label assignment
included. -/
theorem segment_fibers_deterministic {h w : Nat} (S : Stages h w) (P : Params)
    (fs : List String) (out_dir : String) (debug : Bool)
    (fovs1 fovs2 : List (String × RImg h w)) (heq : fovListEq fovs1 fovs2 = true) :
    segment_fibers S P fs out_dir debug fovs1 =
      segment_fibers S P fs out_dir debug fovs2 := by
  rw [fovListEq_eq fovs1 fovs2 heq]

/-- The source defaults: `blur=2`, `contrast_scaling_divisor=128`,
`fiber_widths=(2, 4)`, `ridge_cutoff=0.1`, `sobel_blur=1`,
`min_fiber_size=15`. -/
def defaultParams : Params where
  blur := 2
  contrast_scaling_divisor := 128
  fiber_widths := [2, 4]
  ridge_cutoff := 1 / 10
  sobel_blur := 1
  min_fiber_size := 15

/-- A concrete one-fov stack. -/
def fovsA : List (String × RImg 1 1) := [("fov0", fun _ _ => 1)]

/-- The same stack written differently but elementwise identical. -/
def fovsB : List (String × RImg 1 1) :=
  [("fov0", fun _ c => if c.val < 1 then 1 else 0)]

/-- Witness for C5 at two syntactically distinct, pointwise-equal stacks. -/
theorem segment_fibers_deterministic_witness :
    fovListEq fovsA fovsB = true ∧
    segment_fibers (testStages 1 1) defaultParams ["out"] "out" false fovsA =
      segment_fibers (testStages 1 1) defaultParams ["out"] "out" false fovsB :=
  ⟨by decide, segment_fibers_deterministic (testStages 1 1) defaultParams ["out"] "out"
    false fovsA fovsB (by decide)⟩

/-- C6 (amended): when the smoothed channel image is entirely zero, so its
maximum is 0, the normalization `blurred / np.max(blurred)` divides by
zero and yields a non-finite (NaN) value at every pixel; numpy raises no
typed division error (it only emits a runtime warning), and the NaN-laden
image flows on into the contrast-enhancement stage. -/
theorem allzero_normalization_propagates_nan {h w : Nat} (blurred : RImg h w)
    (hmax : npMax blurred = 0) :
    ∀ (r : Fin h) (c : Fin w), npDivMax blurred r c = none := by
  intro r c
  unfold npDivMax npDiv
  rw [hmax]
  simp

/-- The all-zero 1×1 channel image. -/
def zeroImg11 : RImg 1 1 := fun _ _ => 0

/-- Witness for the amended C6 at the all-zero image. -/
theorem allzero_normalization_propagates_nan_witness :
    npMax zeroImg11 = 0 ∧ ∀ (r : Fin 1) (c : Fin 1), npDivMax zeroImg11 r c = none :=
  ⟨by decide, allzero_normalization_propagates_nan zeroImg11 (by decide)⟩

/-- C6 counterexample: on an all-zero fov the normalization produces a
non-finite (NaN) pixel value instead of raising, and the pipeline run
completes without any error — numpy float division by zero is a warning,
not a typed numeric failure, so the claimed division error never occurs. -/
theorem allzero_no_division_error_counterexample :
    npMax zeroImg11 = 0 ∧ npDivMax zeroImg11 0 0 = none ∧
    isOkRun (segment_fibers (testStages 1 1) defaultParams ["out"] "out" false
      [("fov0", zeroImg11)]) = true :=
  ⟨by decide, by decide, rfl⟩

/-- C7: when the output directory does not exist, `segment_fibers` raises
`FileNotFoundError` before touching any fov — for every fov list the
result is the error and no label image, table row or created directory is
produced. -/
theorem missing_out_dir_fails_fast {h w : Nat} (S : Stages h w) (P : Params)
    (fs : List String) (out_dir : String) (debug : Bool)
    (fovs : List (String × RImg h w))
    (hmiss : fs.any (fun s => decide (s = out_dir)) = false) :
    segment_fibers S P fs out_dir debug fovs = .error .fileNotFound := by
  unfold segment_fibers
  rw [hmiss]
  rfl

/-- Witness for C7 on an empty filesystem. -/
theorem missing_out_dir_fails_fast_witness :
    ([] : List String).any (fun s => decide (s = "out")) = false ∧
    segment_fibers (testStages 1 1) defaultParams [] "out" false fovsA =
      .error .fileNotFound :=
  ⟨by decide, missing_out_dir_fails_fast (testStages 1 1) defaultParams [] "out" false
    fovsA (by decide)⟩

/-- C8 (amended): with the output directory present, enabling debug mode
creates the `_debug` subdirectory when it is absent, but a pre-existing
`_debug` subdirectory makes `os.makedirs` raise `FileExistsError`
(existence IS an error, unlike what the spec states); with debug disabled
no directory is created. -/
theorem debug_dir_creation_behavior {h w : Nat} (S : Stages h w) (P : Params)
    (fs : List String) (out_dir : String) (fovs : List (String × RImg h w))
    (hout : fs.any (fun s => decide (s = out_dir)) = true) :
    (fs.any (fun s => decide (s = debugPath out_dir)) = false →
      ∃ o : SegOutput h w, segment_fibers S P fs out_dir true fovs = .ok o ∧
        o.createdDirs = [debugPath out_dir]) ∧
    (fs.any (fun s => decide (s = debugPath out_dir)) = true →
      segment_fibers S P fs out_dir true fovs = .error .fileExists) ∧
    (∃ o : SegOutput h w, segment_fibers S P fs out_dir false fovs = .ok o ∧
      o.createdDirs = []) := by
  unfold segment_fibers
  rw [hout]
  refine ⟨?_, ?_, ?_⟩
  · intro habs
    rw [habs]
    exact ⟨_, rfl, rfl⟩
  · intro hex
    rw [hex]
    rfl
  · exact ⟨_, rfl, rfl⟩

/-- Witness for the amended C8: debug directory absent and debug disabled
branches, on a concrete filesystem. -/
theorem debug_dir_creation_behavior_witness :
    (["out"].any (fun s => decide (s = "out")) = true) ∧
    ((["out"].any (fun s => decide (s = debugPath "out")) = false →
      ∃ o : SegOutput 1 1,
        segment_fibers (testStages 1 1) defaultParams ["out"] "out" true fovsA = .ok o ∧
        o.createdDirs = [debugPath "out"]) ∧
    (["out"].any (fun s => decide (s = debugPath "out")) = true →
      segment_fibers (testStages 1 1) defaultParams ["out"] "out" true fovsA =
        .error .fileExists) ∧
    (∃ o : SegOutput 1 1,
      segment_fibers (testStages 1 1) defaultParams ["out"] "out" false fovsA = .ok o ∧
      o.createdDirs = [])) :=
  ⟨by decide, debug_dir_creation_behavior (testStages 1 1) defaultParams ["out"] "out"
    fovsA (by decide)⟩

/-- C8 counterexample: with the `_debug` subdirectory already present,
enabling debug mode makes the run fail with `FileExistsError` — the prior
existence of `_debug` IS an error, refuting the claim. -/
theorem debug_dir_exists_raises :
    segment_fibers (testStages 1 1) defaultParams ["out", "out/_debug"] "out" true
      [] = .error .fileExists := rfl
